import Mathlib

/-!
Shallow embedding of `cluster/sync/task.go` (goquarkchain): the synchronization
task orchestrator.  The Go `task` struct carries injected strategies
(`findAncestor`, `getHeaders`, `getBlocks`, `syncBlock`, `needSkip`) and runs a
header-batch / block-batch retrieval loop against a `blockchain` accessor.
Heights are Go `uint64`; subtraction and increment wrap modulo 2^64.
The embedding threads the chain state explicitly and records a trace of
observable events (progress emissions, strategy invocations, block commits).
-/

namespace QkcSync

/-- Modulus of Go's uint64 arithmetic. -/
def U64MOD : Nat := 2 ^ 64

/-- Wrapping uint64 subtraction, as Go computes `a - b` on `uint64` values. -/
def u64sub (a b : Nat) : Nat := (a % U64MOD + (U64MOD - b % U64MOD)) % U64MOD

/-- The view of `types.IHeader` the task uses: `NumberU64`, `Hash`, `GetParentHash`. -/
structure Header where
  number : Nat
  hash : Nat
  parentHash : Nat
deriving DecidableEq

/-- The view of `types.IBlock` the task uses: `NumberU64` and `IHeader` both come
from the block's header. -/
structure Block where
  header : Header
deriving DecidableEq

/-- Errors the task can return: values produced by the injected functions or the
chain accessor (carrying an opaque code), the two validation errors of
`validateHeaderList`, and the two block-count-mismatch errors of `Run`. -/
inductive Err where
  | extErr (code : Nat)
  | headerOrder
  | headerLink
  | blockLenMismatch1 (expect actual : Nat)
  | blockLenMismatch2 (expect actual : Nat)
deriving DecidableEq

/-- Observable events of one `Run` invocation: progress emissions through the
sink (only recorded when a sink is attached, mirroring `sendSync`'s nil check),
invocations of the injected functions, and committed blocks (`AddBlock`
successes). -/
inductive Event where
  | progress (syncing : Bool) (current highest : Nat)
  | callFindAncestor
  | callGetHeaders (start : Header)
  | callGetBlocks (hashes : List Nat)
  | callSyncBlock (blk : Block)
  | addBlock (blk : Block)
deriving DecidableEq

/-- The `blockchain` interface as the task uses it: `CurrentHeader`,
`AddBlock` (mutating, so state-passing) and `Validator().ValidateSeal`. -/
structure ChainOps (σ : Type) where
  currentHeader : σ → Header
  addBlock : σ → Block → Except Err σ
  validateSeal : σ → Header → Bool → Option Err

/-- Go's `strings.HasPrefix` on strings viewed as character sequences. -/
def hasPrefixChars : List Char → List Char → Bool
  | _, [] => true
  | [], _ :: _ => false
  | c :: s, p :: ps => c == p && hasPrefixChars s ps

/-- The distinguishing name prefix `"shard-"` of the shard reporting group. -/
def shardMark : List Char := ['s', 'h', 'a', 'r', 'd', '-']

/-- The `task` struct: name, staleness bound, block-batch size, target header,
optional progress sink (`send`), and the five injected behaviors.  The name is
a character sequence (Go string). -/
structure Task (σ : Type) where
  name : List Char
  maxSyncStaleness : Nat
  batchSize : Nat
  header : Header
  send : Option Nat
  findAncestor : σ → Except Err (Option Header)
  getHeaders : Header → Except Err (List Header)
  getBlocks : List Nat → Except Err (List Block)
  syncBlock : Option (σ → Block → Except Err σ)
  needSkip : σ → Bool

/-- The events `t.sendSync(syncing, curr, best)` makes observable: one progress
event when a sink is attached, none otherwise. -/
def sendSyncEv {σ : Type} (t : Task σ) (syncing : Bool) (curr best : Nat) : List Event :=
  match t.send with
  | some _ => [Event.progress syncing curr best]
  | none => []

/-- `SetSendFunc`: store the sink only when the task name has the "shard-"
prefix and no sink is stored yet. -/
def SetSendFunc {σ : Type} (t : Task σ) (sink : Nat) : Task σ :=
  if hasPrefixChars t.name shardMark && t.send.isNone then { t with send := some sink } else t

/-- Loop body of `validateHeaderList`: `prev` is the previously seen header
(`nil` before the first iteration).  For each header: when `prev` is non-nil,
check number contiguity then parent-hash linkage; then run the seal validator
with full-consensus enforcement disabled; then advance `prev`. -/
def validateHeaderListAux {σ : Type} (ops : ChainOps σ) (bc : σ) :
    Option Header → List Header → Option Err
  | _, [] => none
  | some p, h :: rest =>
    if h.number ≠ (p.number + 1) % U64MOD then some Err.headerOrder
    else if p.hash ≠ h.parentHash then some Err.headerLink
    else
      match ops.validateSeal bc h false with
      | some e => some e
      | none => validateHeaderListAux ops bc (some h) rest
  | none, h :: rest =>
    match ops.validateSeal bc h false with
    | some e => some e
    | none => validateHeaderListAux ops bc (some h) rest

/-- `t.validateHeaderList(bc, headers)`: the traversal starts with a nil `prev`,
so the first header is only seal-validated. -/
def validateHeaderList {σ : Type} (ops : ChainOps σ) (bc : σ) (headers : List Header) :
    Option Err :=
  validateHeaderListAux ops bc none headers

/-- The per-response commit loop of `Run`: for each block of one `getBlocks`
response run the optional `syncBlock` hook, then `AddBlock`; increment the
response-local `counter` and emit a progress event whenever it reaches a
multiple of 100, with `current` the block's height and `highest` the height of
the response's last block (`blocks[len(blocks)-1]`); advance the ancestor
pointer to the block's header.  Returns (error?, chain, ancestor, events). -/
def runBlocks {σ : Type} (ops : ChainOps σ) (t : Task σ) :
    σ → List Block → Nat → Nat → Option Header →
    Option Err × σ × Option Header × List Event
  | bc, [], _, _, ancestor => (none, bc, ancestor, [])
  | bc, blk :: rest, counter, lastNum, ancestor =>
    match t.syncBlock with
    | some f =>
      match f bc blk with
      | Except.error e => (some e, bc, ancestor, [Event.callSyncBlock blk])
      | Except.ok bc1 =>
        match ops.addBlock bc1 blk with
        | Except.error e => (some e, bc1, ancestor, [Event.callSyncBlock blk])
        | Except.ok bc2 =>
          let counter1 := counter + 1
          let evp := if counter1 % 100 = 0 then sendSyncEv t true blk.header.number lastNum else []
          let out := runBlocks ops t bc2 rest counter1 lastNum (some blk.header)
          (out.1, out.2.1, out.2.2.1,
            Event.callSyncBlock blk :: Event.addBlock blk :: evp ++ out.2.2.2)
    | none =>
      match ops.addBlock bc blk with
      | Except.error e => (some e, bc, ancestor, [])
      | Except.ok bc2 =>
        let counter1 := counter + 1
        let evp := if counter1 % 100 = 0 then sendSyncEv t true blk.header.number lastNum else []
        let out := runBlocks ops t bc2 rest counter1 lastNum (some blk.header)
        (out.1, out.2.1, out.2.2.1, Event.addBlock blk :: evp ++ out.2.2.2)

/-- The inner `for len(hashlist) > 0` loop of `Run`, fuelled (Go diverges when
`batchSize = 0`; fuel exhaustion is reported as `none`).  A hash list longer
than `batchSize` is sliced at `batchSize` (count mismatch against `batchSize`);
otherwise the whole remainder is requested (count mismatch against its length).
Result is (none | some (error?), chain, ancestor, events). -/
def runChunks {σ : Type} (ops : ChainOps σ) (t : Task σ) :
    Nat → σ → List Nat → Option Header →
    Option (Option Err) × σ × Option Header × List Event
  | _, bc, [], ancestor => (some none, bc, ancestor, [])
  | 0, bc, _ :: _, ancestor => (none, bc, ancestor, [])
  | Nat.succ fuel, bc, hd :: tl, ancestor =>
    let hashlist := hd :: tl
    if hashlist.length > t.batchSize then
      match t.getBlocks (hashlist.take t.batchSize) with
      | Except.error e =>
        (some (some e), bc, ancestor, [Event.callGetBlocks (hashlist.take t.batchSize)])
      | Except.ok blocks =>
        if blocks.length ≠ t.batchSize then
          (some (some (Err.blockLenMismatch1 t.batchSize blocks.length)), bc, ancestor,
            [Event.callGetBlocks (hashlist.take t.batchSize)])
        else
          let lastNum := (blocks.getLast?.map fun b => b.header.number).getD 0
          match runBlocks ops t bc blocks 0 lastNum ancestor with
          | (some e, bc2, anc2, evs) =>
            (some (some e), bc2, anc2, Event.callGetBlocks (hashlist.take t.batchSize) :: evs)
          | (none, bc2, anc2, evs) =>
            let out := runChunks ops t fuel bc2 (hashlist.drop t.batchSize) anc2
            (out.1, out.2.1, out.2.2.1,
              Event.callGetBlocks (hashlist.take t.batchSize) :: evs ++ out.2.2.2)
    else
      match t.getBlocks hashlist with
      | Except.error e => (some (some e), bc, ancestor, [Event.callGetBlocks hashlist])
      | Except.ok blocks =>
        if blocks.length ≠ hashlist.length then
          (some (some (Err.blockLenMismatch2 hashlist.length blocks.length)), bc, ancestor,
            [Event.callGetBlocks hashlist])
        else
          let lastNum := (blocks.getLast?.map fun b => b.header.number).getD 0
          match runBlocks ops t bc blocks 0 lastNum ancestor with
          | (some e, bc2, anc2, evs) =>
            (some (some e), bc2, anc2, Event.callGetBlocks hashlist :: evs)
          | (none, bc2, anc2, evs) =>
            (some none, bc2, anc2, Event.callGetBlocks hashlist :: evs)

/-- The outer `for !qkcom.IsNil(ancestor)` loop of `Run`, fuelled.  When the
ancestor pointer is nil the loop exits and the end progress event is emitted;
an empty header batch returns nil WITHOUT the end event; a validation failure
or any propagated error aborts. -/
def runOuter {σ : Type} (ops : ChainOps σ) (t : Task σ) :
    Nat → σ → Option Header → Option (Option Err) × σ × List Event
  | _, bc, none =>
    (some none, bc, sendSyncEv t false (ops.currentHeader bc).number t.header.number)
  | 0, bc, some _ => (none, bc, [])
  | Nat.succ fuel, bc, some ancestor =>
    match t.getHeaders ancestor with
    | Except.error e => (some (some e), bc, [Event.callGetHeaders ancestor])
    | Except.ok headers =>
      if headers.isEmpty then (some none, bc, [Event.callGetHeaders ancestor])
      else
        match validateHeaderList ops bc headers with
        | some e => (some (some e), bc, [Event.callGetHeaders ancestor])
        | none =>
          let hashlist := headers.map Header.hash
          match runChunks ops t (hashlist.length + 1) bc hashlist (some ancestor) with
          | (none, bc2, _, evs) => (none, bc2, Event.callGetHeaders ancestor :: evs)
          | (some (some e), bc2, _, evs) =>
            (some (some e), bc2, Event.callGetHeaders ancestor :: evs)
          | (some none, bc2, anc2, evs) =>
            let out := runOuter ops t fuel bc2 anc2
            (out.1, out.2.1, Event.callGetHeaders ancestor :: evs ++ out.2.2)

/-- `t.Run(bc)`: skip gate, start progress event (note: `sendSync(false, ...)`),
ancestor discovery, staleness gate in wrapping uint64 arithmetic, then the
outer fetch loop.  Result is (none = divergence | some (error?), final chain,
event trace). -/
def Run {σ : Type} (ops : ChainOps σ) (t : Task σ) (fuel : Nat) (bc : σ) :
    Option (Option Err) × σ × List Event :=
  if t.needSkip bc then (some none, bc, [])
  else
    let ev1 := sendSyncEv t false (ops.currentHeader bc).number t.header.number
    match t.findAncestor bc with
    | Except.error e => (some (some e), bc, ev1 ++ [Event.callFindAncestor])
    | Except.ok none => (some none, bc, ev1 ++ [Event.callFindAncestor])
    | Except.ok (some ancestor) =>
      if u64sub (ops.currentHeader bc).number ancestor.number > t.maxSyncStaleness then
        (some none, bc, ev1 ++ [Event.callFindAncestor])
      else
        let out := runOuter ops t fuel bc (some ancestor)
        (out.1, out.2.1, ev1 ++ Event.callFindAncestor :: out.2.2)

/-- The progress events of a trace, as (syncing, current, highest) triples. -/
def progressEvents : List Event → List (Bool × Nat × Nat)
  | [] => []
  | Event.progress s c h :: rest => (s, c, h) :: progressEvents rest
  | _ :: rest => progressEvents rest

/-- The blocks committed in a trace, in commit order. -/
def commits : List Event → List Block
  | [] => []
  | Event.addBlock b :: rest => b :: commits rest
  | _ :: rest => commits rest

/-! Concrete chain instance used to exercise `Run` on concrete inputs. -/

/-- A concrete chain state: the current head header and the list of blocks
committed so far. -/
structure TChain where
  head : Header
  blocks : List Block
deriving DecidableEq

/-- Concrete chain accessor: `AddBlock` always succeeds, appending the block
and advancing the head; seal validation always passes. -/
def tops : ChainOps TChain where
  currentHeader := fun c => c.head
  addBlock := fun c b => Except.ok ⟨b.header, c.blocks ++ [b]⟩
  validateSeal := fun _ _ _ => none

/-- Header at height n in a canonical linear chain: hash = n, parent = n - 1. -/
def mkHeader (n : Nat) : Header := ⟨n, n, n - 1⟩

/-- Canonical batch of n consecutive headers starting at height `start`. -/
def mkHeaders (start n : Nat) : List Header := (List.range n).map fun i => mkHeader (start + i)

/-- Canonical block fetcher response: one block per requested hash, whose
header is the canonical header of that height. -/
def mkBlocks (hashes : List Nat) : List Block := hashes.map fun h => ⟨mkHeader h⟩

/-- The adjacency relation `validateHeaderList` enforces between a previous and
a current header: contiguous height (with uint64 wraparound of the increment)
and parent-hash linkage. -/
def HdrStep (p h : Header) : Prop := h.number = (p.number + 1) % U64MOD ∧ p.hash = h.parentHash

instance : DecidableRel HdrStep := fun p h =>
  inferInstanceAs (Decidable (h.number = (p.number + 1) % U64MOD ∧ p.hash = h.parentHash))

/-- The intermediate progress events mandated for one block-fetch response:
after the (100·k)-th block of the response, the event (syncing = true,
current = that block's height, highest = the response's last block's height). -/
def responseEvents (blocks : List Block) : List (Bool × Nat × Nat) :=
  match blocks.getLast? with
  | none => []
  | some lastB =>
    (List.range blocks.length).filterMap fun i =>
      if (i + 1) % 100 = 0 then
        (blocks.get? i).map fun b => (true, b.header.number, lastB.header.number)
      else none

/-! Concrete tasks used as counterexamples and witnesses. -/

/-- Baseline concrete task over `TChain`: shard-group name, sink attached,
ancestor at height 5, one batch of headers 6..8, canonical blocks. -/
def baseTask : Task TChain where
  name := shardMark ++ ['0']
  maxSyncStaleness := 22
  batchSize := 50
  header := mkHeader 20
  send := some 0
  findAncestor := fun _ => Except.ok (some (mkHeader 5))
  getHeaders := fun a => if a.number = 5 then Except.ok (mkHeaders 6 3) else Except.ok []
  getBlocks := fun hs => Except.ok (mkBlocks hs)
  syncBlock := none
  needSkip := fun _ => false

/-- Concrete chain state: head at height 10, nothing committed yet. -/
def bc0 : TChain := ⟨mkHeader 10, []⟩

/-- Task whose header fetcher answers the ancestor with a single header that
extends neither the ancestor's height nor its hash. -/
def taskC1 : Task TChain := { baseTask with
  getHeaders := fun a => if a.number = 5 then Except.ok [⟨42, 42, 999⟩] else Except.ok []
  getBlocks := fun hs => Except.ok (hs.map fun h => ⟨⟨h, h, 999⟩⟩) }

/-- Task whose ancestor locator reports an explicit absence. -/
def taskC2 : Task TChain := { baseTask with findAncestor := fun _ => Except.ok none }

/-- Task whose header fetcher immediately returns an empty batch. -/
def taskC3 : Task TChain := { baseTask with getHeaders := fun _ => Except.ok [] }

/-- Task fetching one header batch of 101 headers (6..106) with block-batch
size 100, so the batch is committed as a chunk of 100 plus a chunk of 1. -/
def taskC4 : Task TChain := { baseTask with
  batchSize := 100
  maxSyncStaleness := 1000
  header := mkHeader 106
  getHeaders := fun a => if a.number = 5 then Except.ok (mkHeaders 6 101) else Except.ok [] }

/-- Task fetching one header batch of 120 headers (6..125) with block-batch
size 60: two chunks of 60, so no chunk ever reaches 100 commits. -/
def taskC4b : Task TChain := { baseTask with
  batchSize := 60
  maxSyncStaleness := 1000
  header := mkHeader 125
  getHeaders := fun a => if a.number = 5 then Except.ok (mkHeaders 6 120) else Except.ok [] }

/-- Task with block-batch size 150, so a 100-hash list is fetched as a single
response and the response-local counter reaches 100. -/
def taskC4c : Task TChain := { baseTask with batchSize := 150, maxSyncStaleness := 1000 }

/-- Task whose block fetcher always answers with a single block, regardless of
how many hashes were requested. -/
def taskC5 : Task TChain := { baseTask with
  batchSize := 2
  getBlocks := fun _ => Except.ok [⟨mkHeader 6⟩] }

/-- Task (batch size 50) whose block fetcher also always answers with a single
block, so the final-chunk count check fails. -/
def taskC5b : Task TChain := { baseTask with getBlocks := fun _ => Except.ok [⟨mkHeader 6⟩] }

/-- Task whose header fetcher returns a batch with a height gap (6, 7, 9). -/
def taskC6 : Task TChain := { baseTask with
  getHeaders := fun a =>
    if a.number = 5 then Except.ok [mkHeader 6, mkHeader 7, ⟨9, 9, 8⟩] else Except.ok [] }

/-- Task at the staleness boundary: bound 5 equals the head-ancestor distance. -/
def taskC7a : Task TChain := { baseTask with maxSyncStaleness := 5 }

/-- Task just past the staleness boundary: bound 4, distance 5. -/
def taskC7b : Task TChain := { baseTask with maxSyncStaleness := 4 }

/-- Task whose skip predicate always fires. -/
def taskC8 : Task TChain := { baseTask with needSkip := fun _ => true }

/-- Shard-group task with no sink attached yet. -/
def taskC9a : Task TChain := { baseTask with send := none }

/-- Shard-group task whose sink is already attached. -/
def taskC9b : Task TChain := { baseTask with send := some 3 }

/-- Task outside the shard reporting group, with no sink. -/
def taskC9c : Task TChain := { baseTask with
  name := ['m', 'a', 's', 't', 'e', 'r']
  send := none }

/-- Task whose ancestor locator returns a header above the local head. -/
def taskC10 : Task TChain := { baseTask with
  findAncestor := fun _ => Except.ok (some (mkHeader 11)) }

/-! Helper lemmas. -/

theorem progressEvents_append (l1 l2 : List Event) :
    progressEvents (l1 ++ l2) = progressEvents l1 ++ progressEvents l2 := by
  induction l1 with
  | nil => rfl
  | cons e rest ih => cases e <;> simp [progressEvents, ih]

theorem commits_append (l1 l2 : List Event) :
    commits (l1 ++ l2) = commits l1 ++ commits l2 := by
  induction l1 with
  | nil => rfl
  | cons e rest ih => cases e <;> simp [commits, ih]

theorem commits_sendSyncEv {σ : Type} (t : Task σ) (b : Bool) (c h : Nat) :
    commits (sendSyncEv t b c h) = [] := by
  cases hs : t.send <;> simp [sendSyncEv, hs, commits]

theorem mem_of_mem_commits (b : Block) : ∀ l : List Event, b ∈ commits l → Event.addBlock b ∈ l := by
  intro l
  induction l with
  | nil => intro h; cases h
  | cons e rest ih =>
    intro hmem
    cases e <;> simp only [commits] at hmem <;> first
      | exact List.mem_cons_of_mem _ (ih hmem)
      | rcases List.mem_cons.mp hmem with heq | htail
        · rw [heq]; exact List.mem_cons_self _ _
        · exact List.mem_cons_of_mem _ (ih htail)

theorem u64sub_of_le (c a : Nat) (hc : c < U64MOD) (hac : a ≤ c) : u64sub c a = c - a := by
  have ha : a < U64MOD := lt_of_le_of_lt hac hc
  have hM : 0 < U64MOD := by norm_num [U64MOD]
  unfold u64sub
  rw [Nat.mod_eq_of_lt hc, Nat.mod_eq_of_lt ha]
  have heq : c + (U64MOD - a) = (c - a) + U64MOD := by omega
  rw [heq, Nat.add_mod_right, Nat.mod_eq_of_lt (by omega)]

theorem u64sub_of_lt (c a : Nat) (ha : a < U64MOD) (hca : c < a) :
    u64sub c a = c + U64MOD - a := by
  have hc : c < U64MOD := lt_trans hca ha
  unfold u64sub
  rw [Nat.mod_eq_of_lt hc, Nat.mod_eq_of_lt ha]
  have heq : c + (U64MOD - a) = c + U64MOD - a := by omega
  rw [heq, Nat.mod_eq_of_lt (by omega)]

/-! Claim theorems. -/

/-- C8: when the skip predicate reports true, `Run` returns nil immediately,
the chain is untouched and the trace is empty: no progress event is emitted
and none of the injected functions (ancestor locator, header fetcher, block
fetcher, sync hook) is invoked, whatever they would do. -/
theorem skip_gate_frame {σ : Type} (ops : ChainOps σ) (t : Task σ) (fuel : Nat) (bc : σ)
    (h : t.needSkip bc = true) : Run ops t fuel bc = (some none, bc, []) := by
  simp [Run, h]

theorem skip_gate_frame_witness :
    taskC8.needSkip bc0 = true ∧ Run tops taskC8 5 bc0 = (some none, bc0, []) :=
  ⟨rfl, skip_gate_frame tops taskC8 5 bc0 rfl⟩

/-- C2 counterexample: a run that passes the skip gate with a sink attached
emits, as its first progress event, (syncing = false, current = 10,
highest = 20) — the syncing flag is false, not true as claimed. -/
theorem start_progress_event_cex :
    (progressEvents (Run tops taskC2 5 bc0).2.2).head? = some (false, 10, 20) ∧
    (progressEvents (Run tops taskC2 5 bc0).2.2).head? ≠ some (true, 10, 20) := by decide

/-- C2 amended: for every invocation of `Run` that passes the skip gate with a
sink attached, the first emitted progress event has syncing = FALSE (the code
calls `sendSync(false, ...)` for the start event), current = the chain's
current head height, and highest = the task's target header height. -/
theorem start_progress_event_syncing_false {σ : Type} (ops : ChainOps σ) (t : Task σ)
    (fuel : Nat) (bc : σ) (s : Nat) (hskip : t.needSkip bc = false) (hsend : t.send = some s) :
    (progressEvents (Run ops t fuel bc).2.2).head? =
      some (false, (ops.currentHeader bc).number, t.header.number) := by
  have hev : sendSyncEv t false (ops.currentHeader bc).number t.header.number =
      [Event.progress false (ops.currentHeader bc).number t.header.number] := by
    simp [sendSyncEv, hsend]
  rcases hfa : t.findAncestor bc with e | oa
  · simp [Run, hskip, hfa, hev, progressEvents_append, progressEvents]
  · cases oa with
    | none => simp [Run, hskip, hfa, hev, progressEvents_append, progressEvents]
    | some a =>
      by_cases hst : u64sub (ops.currentHeader bc).number a.number > t.maxSyncStaleness
      · simp [Run, hskip, hfa, hst, hev, progressEvents_append, progressEvents]
      · simp [Run, hskip, hfa, hst, hev, progressEvents_append, progressEvents]

theorem start_progress_event_syncing_false_witness :
    taskC2.needSkip bc0 = false ∧ taskC2.send = some 0 ∧
    (progressEvents (Run tops taskC2 5 bc0).2.2).head? = some (false, 10, 20) :=
  ⟨rfl, rfl, start_progress_event_syncing_false tops taskC2 5 bc0 0 rfl rfl⟩

/-- C3 counterexample: when the header fetcher returns an empty batch, `Run`
returns nil, but the trace ends at the `getHeaders` call: the only progress
event ever emitted is the start event, so no end progress event is emitted on
this exhausted-peer path. -/
theorem empty_batch_no_end_event_cex :
    Run tops taskC3 5 bc0 = (some none, bc0,
      [Event.progress false 10 20, Event.callFindAncestor, Event.callGetHeaders (mkHeader 5)]) ∧
    progressEvents (Run tops taskC3 5 bc0).2.2 = [(false, 10, 20)] := by decide

/-- C3 amended: whenever the header fetcher returns an empty batch, `Run`
returns success (nil) and emits NO further progress event: the trace is the
start event, the ancestor-locator call and the header-fetch call, nothing
else — the end progress event is only reachable through the loop condition
itself (a nil ancestor pointer). -/
theorem empty_batch_returns_nil_without_end_event {σ : Type} (ops : ChainOps σ) (t : Task σ)
    (fuel : Nat) (bc : σ) (a : Header) (hskip : t.needSkip bc = false)
    (hfa : t.findAncestor bc = Except.ok (some a))
    (hst : ¬ u64sub (ops.currentHeader bc).number a.number > t.maxSyncStaleness)
    (hgh : t.getHeaders a = Except.ok []) :
    Run ops t (fuel + 1) bc = (some none, bc,
      sendSyncEv t false (ops.currentHeader bc).number t.header.number ++
        [Event.callFindAncestor, Event.callGetHeaders a]) := by
  simp [Run, hskip, hfa, hst, runOuter, hgh]

theorem empty_batch_returns_nil_without_end_event_witness :
    taskC3.needSkip bc0 = false ∧ taskC3.findAncestor bc0 = Except.ok (some (mkHeader 5)) ∧
    ¬ u64sub 10 5 > 22 ∧ taskC3.getHeaders (mkHeader 5) = Except.ok [] ∧
    Run tops taskC3 5 bc0 = (some none, bc0,
      sendSyncEv taskC3 false 10 20 ++
        [Event.callFindAncestor, Event.callGetHeaders (mkHeader 5)]) :=
  ⟨rfl, rfl, by decide, rfl,
    empty_batch_returns_nil_without_end_event tops taskC3 4 bc0 (mkHeader 5) rfl rfl
      (by decide) rfl⟩

/-- C1 counterexample: the ancestor is at height 5 with hash 5, yet a batch
whose single header has height 42 and parent hash 999 — extending the ancestor
in neither height nor hash — is accepted: `Run` fetches the block, commits it
and returns nil instead of a protocol-violation error. -/
theorem firstHeader_unlinked_batch_accepted_cex :
    Run tops taskC1 5 bc0 = (some none, ⟨⟨42, 42, 999⟩, [⟨⟨42, 42, 999⟩⟩]⟩,
      [Event.progress false 10 20, Event.callFindAncestor, Event.callGetHeaders (mkHeader 5),
       Event.callGetBlocks [42], Event.addBlock ⟨⟨42, 42, 999⟩⟩,
       Event.callGetHeaders ⟨42, 42, 999⟩]) ∧
    (42 : Nat) ≠ ((mkHeader 5).number + 1) % U64MOD ∧ (999 : Nat) ≠ (mkHeader 5).hash := by
  decide

/-- C1 amended: `validateHeaderList` starts its traversal with a nil previous
header, so the first header of a batch is only seal-validated; it is never
checked for contiguity or parent-hash linkage against the ancestor that
produced the fetch request, and a batch whose first header does not extend
that ancestor is accepted whenever its seals pass. -/
theorem firstHeader_not_checked_against_ancestor {σ : Type} (ops : ChainOps σ) (bc : σ)
    (a h : Header) (_hnum : h.number ≠ (a.number + 1) % U64MOD) (_hlink : h.parentHash ≠ a.hash)
    (hseal : ops.validateSeal bc h false = none) :
    validateHeaderList ops bc [h] = none := by
  simp [validateHeaderList, validateHeaderListAux, hseal]

theorem firstHeader_not_checked_against_ancestor_witness :
    (42 : Nat) ≠ ((mkHeader 5).number + 1) % U64MOD ∧ (999 : Nat) ≠ (mkHeader 5).hash ∧
    tops.validateSeal bc0 ⟨42, 42, 999⟩ false = none ∧
    validateHeaderList tops bc0 [⟨42, 42, 999⟩] = none :=
  ⟨by decide, by decide, rfl,
    firstHeader_not_checked_against_ancestor tops bc0 (mkHeader 5) ⟨42, 42, 999⟩
      (by decide) (by decide) rfl⟩

/-- In every branch of an outer-loop iteration with a non-nil ancestor, the
header fetcher is invoked on that ancestor. -/
theorem runOuter_calls_getHeaders {σ : Type} (ops : ChainOps σ) (t : Task σ) (fuel : Nat)
    (bc : σ) (a : Header) :
    Event.callGetHeaders a ∈ (runOuter ops t (fuel + 1) bc (some a)).2.2 := by
  rcases hgh : t.getHeaders a with e | headers
  · simp [runOuter, hgh]
  · by_cases hemp : headers.isEmpty
    · simp [runOuter, hgh, hemp]
    · rcases hval : validateHeaderList ops bc headers with _ | e
      · simp only [runOuter, hgh, hemp, Bool.false_eq_true, if_false, hval]
        rcases hrc : runChunks ops t ((headers.map Header.hash).length + 1) bc
            (headers.map Header.hash) (some a) with ⟨r, bc2, anc2, evs⟩
        rcases r with _ | r2
        · simp
        · rcases r2 with _ | e2
          · simp
          · simp
      · simp [runOuter, hgh, hemp, hval]

/-- C7: with the ancestor at distance exactly `maxSyncStaleness` below the
head, `Run` proceeds into the fetch loop (the header fetcher is invoked on the
ancestor); at distance `maxSyncStaleness + 1` it returns nil right after the
staleness gate, with no header or block fetch and no chain mutation — the
trace holds only the start progress event and the ancestor-locator call. -/
theorem staleness_gate_boundary {σ : Type} (ops : ChainOps σ) (t : Task σ) (fuel : Nat)
    (bc : σ) (a : Header) (hskip : t.needSkip bc = false)
    (hfa : t.findAncestor bc = Except.ok (some a))
    (hc : (ops.currentHeader bc).number < U64MOD)
    (hac : a.number ≤ (ops.currentHeader bc).number) :
    ((ops.currentHeader bc).number - a.number = t.maxSyncStaleness →
      Event.callGetHeaders a ∈ (Run ops t (fuel + 1) bc).2.2) ∧
    ((ops.currentHeader bc).number - a.number = t.maxSyncStaleness + 1 →
      Run ops t (fuel + 1) bc = (some none, bc,
        sendSyncEv t false (ops.currentHeader bc).number t.header.number ++
          [Event.callFindAncestor])) := by
  have hsub := u64sub_of_le (ops.currentHeader bc).number a.number hc hac
  constructor
  · intro hS
    have hst : ¬ u64sub (ops.currentHeader bc).number a.number > t.maxSyncStaleness := by
      rw [hsub, hS]; omega
    have hrun : (Run ops t (fuel + 1) bc).2.2 =
        sendSyncEv t false (ops.currentHeader bc).number t.header.number ++
          Event.callFindAncestor :: (runOuter ops t (fuel + 1) bc (some a)).2.2 := by
      simp [Run, hskip, hfa, hst]
    rw [hrun]
    exact List.mem_append_right _
      (List.mem_cons_of_mem _ (runOuter_calls_getHeaders ops t fuel bc a))
  · intro hS1
    have hst : u64sub (ops.currentHeader bc).number a.number > t.maxSyncStaleness := by
      rw [hsub, hS1]; omega
    simp [Run, hskip, hfa, hst]

theorem staleness_gate_boundary_witness :
    Event.callGetHeaders (mkHeader 5) ∈ (Run tops taskC7a 5 bc0).2.2 ∧
    Run tops taskC7b 5 bc0 = (some none, bc0,
      sendSyncEv taskC7b false 10 20 ++ [Event.callFindAncestor]) :=
  ⟨(staleness_gate_boundary tops taskC7a 4 bc0 (mkHeader 5) rfl rfl (by decide)
      (by decide)).1 (by decide),
   (staleness_gate_boundary tops taskC7b 4 bc0 (mkHeader 5) rfl rfl (by decide)
      (by decide)).2 (by decide)⟩

/-- C10: when the ancestor locator returns a header strictly above the local
head, the staleness computation wraps modulo 2^64 — it equals
`head + 2^64 - ancestor` — and for every `maxSyncStaleness` below that wrapped
difference `Run` aborts successfully: nil result, chain unchanged, no header
or block fetched, no block committed. -/
theorem staleness_uint64_wraparound {σ : Type} (ops : ChainOps σ) (t : Task σ) (fuel : Nat)
    (bc : σ) (a : Header) (hskip : t.needSkip bc = false)
    (hfa : t.findAncestor bc = Except.ok (some a)) (ha : a.number < U64MOD)
    (hca : (ops.currentHeader bc).number < a.number)
    (hS : t.maxSyncStaleness < (ops.currentHeader bc).number + U64MOD - a.number) :
    u64sub (ops.currentHeader bc).number a.number =
      (ops.currentHeader bc).number + U64MOD - a.number ∧
    Run ops t fuel bc = (some none, bc,
      sendSyncEv t false (ops.currentHeader bc).number t.header.number ++
        [Event.callFindAncestor]) := by
  have hsub := u64sub_of_lt (ops.currentHeader bc).number a.number ha hca
  refine ⟨hsub, ?_⟩
  have hst : u64sub (ops.currentHeader bc).number a.number > t.maxSyncStaleness := by
    rw [hsub]; omega
  simp [Run, hskip, hfa, hst]

theorem staleness_uint64_wraparound_witness :
    u64sub 10 11 = 10 + U64MOD - 11 ∧
    Run tops taskC10 5 bc0 = (some none, bc0,
      sendSyncEv taskC10 false 10 20 ++ [Event.callFindAncestor]) :=
  staleness_uint64_wraparound tops taskC10 5 bc0 (mkHeader 11) rfl rfl (by decide)
    (by decide) (by decide)

/-- A task whose name lacks the shard marker is left unchanged by any sequence
of `SetSendFunc` calls. -/
theorem setSendFunc_foldl_of_no_mark {σ : Type} (t : Task σ)
    (h : hasPrefixChars t.name shardMark = false) :
    ∀ sinks : List Nat, List.foldl SetSendFunc t sinks = t := by
  intro sinks
  induction sinks with
  | nil => rfl
  | cons s rest ih =>
    have hone : SetSendFunc t s = t := by simp [SetSendFunc, h]
    simp only [List.foldl, hone, ih]

/-- C9: `SetSendFunc` stores the sink exactly when the task name carries the
shard marker and no sink is stored yet; a call on a task whose sink is set is
a no-op; and a task outside the reporting group keeps its sink slot through
any sequence of attach attempts, so with no sink it emits nothing observable. -/
theorem setSendFunc_first_writer_wins {σ : Type} (t : Task σ) (s s0 : Nat) (sinks : List Nat) :
    (hasPrefixChars t.name shardMark = true → t.send = none →
      SetSendFunc t s = { t with send := some s }) ∧
    (t.send = some s0 → SetSendFunc t s = t) ∧
    (hasPrefixChars t.name shardMark = false →
      List.foldl SetSendFunc t sinks = t ∧
      (t.send = none → ∀ (b : Bool) (c h : Nat),
        sendSyncEv (List.foldl SetSendFunc t sinks) b c h = [])) := by
  refine ⟨?_, ?_, ?_⟩
  · intro hp hn
    simp [SetSendFunc, hp, hn]
  · intro hs
    simp [SetSendFunc, hs]
  · intro hp
    have hfold := setSendFunc_foldl_of_no_mark t hp sinks
    refine ⟨hfold, fun hn b c h => ?_⟩
    rw [hfold]
    simp [sendSyncEv, hn]

theorem setSendFunc_first_writer_wins_witness :
    SetSendFunc taskC9a 7 = { taskC9a with send := some 7 } ∧
    SetSendFunc taskC9b 7 = taskC9b ∧
    List.foldl SetSendFunc taskC9c [1, 2, 3] = taskC9c ∧
    sendSyncEv (List.foldl SetSendFunc taskC9c [1, 2, 3]) true 1 2 = [] :=
  ⟨(setSendFunc_first_writer_wins taskC9a 7 0 []).1 rfl rfl,
   (setSendFunc_first_writer_wins taskC9b 7 3 []).2.1 rfl,
   ((setSendFunc_first_writer_wins taskC9c 7 0 [1, 2, 3]).2.2 rfl).1,
   ((setSendFunc_first_writer_wins taskC9c 7 0 [1, 2, 3]).2.2 rfl).2 rfl true 1 2⟩

/-- The traversal of `validateHeaderList` with a non-nil previous header
accepts exactly the batches that chain onto it step by step with all seals
passing. -/
theorem vhlAux_some_none_iff {σ : Type} (ops : ChainOps σ) (bc : σ) :
    ∀ (headers : List Header) (p : Header),
    validateHeaderListAux ops bc (some p) headers = none ↔
      (List.Chain HdrStep p headers ∧ ∀ h ∈ headers, ops.validateSeal bc h false = none) := by
  intro headers
  induction headers with
  | nil =>
    intro p
    constructor
    · intro _
      exact ⟨List.Chain.nil, by intro x hx; cases hx⟩
    · intro _
      rfl
  | cons h rest ih =>
    intro p
    by_cases h1 : h.number = (p.number + 1) % U64MOD
    · by_cases h2 : p.hash = h.parentHash
      · cases hseal : ops.validateSeal bc h false with
        | some e =>
          have hred : validateHeaderListAux ops bc (some p) (h :: rest) = some e := by
            simp [validateHeaderListAux, h1, h2, hseal]
          rw [hred]
          constructor
          · intro hc
            simp at hc
          · rintro ⟨_, hseals⟩
            have hx := hseals h (List.mem_cons_self h rest)
            rw [hseal] at hx
            cases hx
        | none =>
          have hred : validateHeaderListAux ops bc (some p) (h :: rest) =
              validateHeaderListAux ops bc (some h) rest := by
            simp [validateHeaderListAux, h1, h2, hseal]
          rw [hred, ih h]
          constructor
          · rintro ⟨hch, hseals⟩
            refine ⟨List.chain_cons.mpr ⟨⟨h1, h2⟩, hch⟩, ?_⟩
            intro x hx
            rcases List.mem_cons.mp hx with rfl | hx'
            · exact hseal
            · exact hseals x hx'
          · rintro ⟨hch, hseals⟩
            obtain ⟨_, hch'⟩ := List.chain_cons.mp hch
            exact ⟨hch', fun x hx => hseals x (List.mem_cons_of_mem _ hx)⟩
      · have hred : validateHeaderListAux ops bc (some p) (h :: rest) = some Err.headerLink := by
          simp [validateHeaderListAux, h1, h2]
        rw [hred]
        constructor
        · intro hc
          simp at hc
        · rintro ⟨hch, _⟩
          exact absurd (List.chain_cons.mp hch).1.2 h2
    · have hred : validateHeaderListAux ops bc (some p) (h :: rest) = some Err.headerOrder := by
        simp [validateHeaderListAux, h1]
      rw [hred]
      constructor
      · intro hc
        simp at hc
      · rintro ⟨hch, _⟩
        exact absurd (List.chain_cons.mp hch).1.1 h1

/-- `validateHeaderList` accepts exactly the batches whose adjacent pairs all
satisfy contiguity and linkage and whose headers all pass the seal validator
(with full-consensus enforcement disabled). -/
theorem validateHeaderList_none_iff {σ : Type} (ops : ChainOps σ) (bc : σ)
    (headers : List Header) :
    validateHeaderList ops bc headers = none ↔
      (List.Chain' HdrStep headers ∧ ∀ h ∈ headers, ops.validateSeal bc h false = none) := by
  cases headers with
  | nil =>
    simp [validateHeaderList, validateHeaderListAux, List.chain'_nil]
  | cons h rest =>
    cases hseal : ops.validateSeal bc h false with
    | some e =>
      have hred : validateHeaderList ops bc (h :: rest) = some e := by
        simp [validateHeaderList, validateHeaderListAux, hseal]
      rw [hred]
      constructor
      · intro hc
        simp at hc
      · rintro ⟨_, hseals⟩
        have hx := hseals h (List.mem_cons_self h rest)
        rw [hseal] at hx
        cases hx
    | none =>
      have hrw : validateHeaderList ops bc (h :: rest) =
          validateHeaderListAux ops bc (some h) rest := by
        simp [validateHeaderList, validateHeaderListAux, hseal]
      rw [hrw, vhlAux_some_none_iff ops bc rest h]
      constructor
      · rintro ⟨hch, hseals⟩
        refine ⟨hch, ?_⟩
        intro x hx
        rcases List.mem_cons.mp hx with rfl | hx'
        · exact hseal
        · exact hseals x hx'
      · rintro ⟨hch, hseals⟩
        exact ⟨hch, fun x hx => hseals x (List.mem_cons_of_mem _ hx)⟩

/-- When every seal passes, the validator returns either acceptance or one of
the two protocol-violation errors (non-contiguity or broken linkage). -/
theorem vhlAux_err_kind {σ : Type} (ops : ChainOps σ) (bc : σ) :
    ∀ (headers : List Header) (p : Option Header),
    (∀ h ∈ headers, ops.validateSeal bc h false = none) →
    validateHeaderListAux ops bc p headers = none ∨
    validateHeaderListAux ops bc p headers = some Err.headerOrder ∨
    validateHeaderListAux ops bc p headers = some Err.headerLink := by
  intro headers
  induction headers with
  | nil =>
    intro p _
    left
    simp [validateHeaderListAux]
  | cons h rest ih =>
    intro p hseals
    have hseal : ops.validateSeal bc h false = none := hseals h (List.mem_cons_self h rest)
    have hrest : ∀ x ∈ rest, ops.validateSeal bc x false = none := fun x hx =>
      hseals x (List.mem_cons_of_mem _ hx)
    cases p with
    | none =>
      have hred : validateHeaderListAux ops bc none (h :: rest) =
          validateHeaderListAux ops bc (some h) rest := by
        simp [validateHeaderListAux, hseal]
      rw [hred]
      exact ih (some h) hrest
    | some p0 =>
      by_cases h1 : h.number = (p0.number + 1) % U64MOD
      · by_cases h2 : p0.hash = h.parentHash
        · have hred : validateHeaderListAux ops bc (some p0) (h :: rest) =
              validateHeaderListAux ops bc (some h) rest := by
            simp [validateHeaderListAux, h1, h2, hseal]
          rw [hred]
          exact ih (some h) hrest
        · right; right
          simp [validateHeaderListAux, h1, h2]
      · right; left
        simp [validateHeaderListAux, h1]

/-- C6: a batch the validator accepts has every adjacent pair contiguous
(`current.number = previous.number + 1` mod 2^64) and linked
(`previous.hash = current.parentHash`) and every header passing the seal
validator with full-consensus enforcement disabled; a batch violating
contiguity or linkage is always rejected, with one of the two
protocol-violation errors when all seals pass; and a rejected batch aborts the
outer-loop iteration with that error before any block of the batch is fetched
or committed, leaving the chain untouched. -/
theorem header_validator_contract {σ : Type} (ops : ChainOps σ) (t : Task σ) (bc : σ)
    (headers : List Header) (a : Header) (e : Err) (fuel : Nat) :
    (validateHeaderList ops bc headers = none →
      List.Chain' HdrStep headers ∧ ∀ h ∈ headers, ops.validateSeal bc h false = none) ∧
    (¬ List.Chain' HdrStep headers → validateHeaderList ops bc headers ≠ none) ∧
    ((∀ h ∈ headers, ops.validateSeal bc h false = none) → ¬ List.Chain' HdrStep headers →
      validateHeaderList ops bc headers = some Err.headerOrder ∨
      validateHeaderList ops bc headers = some Err.headerLink) ∧
    (t.getHeaders a = Except.ok headers → headers ≠ [] →
      validateHeaderList ops bc headers = some e →
      runOuter ops t (fuel + 1) bc (some a) =
        (some (some e), bc, [Event.callGetHeaders a])) := by
  refine ⟨?_, ?_, ?_, ?_⟩
  · intro hn
    exact (validateHeaderList_none_iff ops bc headers).mp hn
  · intro hch hn
    exact hch ((validateHeaderList_none_iff ops bc headers).mp hn).1
  · intro hseals hch
    rcases vhlAux_err_kind ops bc headers none hseals with h0 | h1 | h2
    · exact absurd ((validateHeaderList_none_iff ops bc headers).mp h0).1 hch
    · exact Or.inl h1
    · exact Or.inr h2
  · intro hgh hne hval
    have hemp : headers.isEmpty = false := by
      cases headers with
      | nil => exact absurd rfl hne
      | cons x xs => rfl
    simp [runOuter, hgh, hemp, hval]

theorem header_validator_contract_witness :
    (List.Chain' HdrStep (mkHeaders 6 3) ∧
      ∀ h ∈ mkHeaders 6 3, tops.validateSeal bc0 h false = none) ∧
    validateHeaderList tops bc0 [mkHeader 6, mkHeader 7, ⟨9, 9, 8⟩] ≠ none ∧
    (validateHeaderList tops bc0 [mkHeader 6, mkHeader 7, ⟨9, 9, 8⟩] = some Err.headerOrder ∨
      validateHeaderList tops bc0 [mkHeader 6, mkHeader 7, ⟨9, 9, 8⟩] = some Err.headerLink) ∧
    runOuter tops taskC6 1 bc0 (some (mkHeader 5)) =
      (some (some Err.headerOrder), bc0, [Event.callGetHeaders (mkHeader 5)]) := by
  have hnc : ¬ List.Chain' HdrStep [mkHeader 6, mkHeader 7, ⟨9, 9, 8⟩] := by
    rw [List.chain'_cons, List.chain'_cons]
    intro h
    exact absurd h.2.1 (by decide)
  refine ⟨?_, ?_, ?_, ?_⟩
  · exact (header_validator_contract tops taskC6 bc0 (mkHeaders 6 3) (mkHeader 5)
      Err.headerOrder 0).1 (by decide)
  · exact (header_validator_contract tops taskC6 bc0 [mkHeader 6, mkHeader 7, ⟨9, 9, 8⟩]
      (mkHeader 5) Err.headerOrder 0).2.1 hnc
  · exact (header_validator_contract tops taskC6 bc0 [mkHeader 6, mkHeader 7, ⟨9, 9, 8⟩]
      (mkHeader 5) Err.headerOrder 0).2.2.1 (by decide) hnc
  · exact (header_validator_contract tops taskC6 bc0 [mkHeader 6, mkHeader 7, ⟨9, 9, 8⟩]
      (mkHeader 5) Err.headerOrder 0).2.2.2 rfl (by decide) (by decide)

/-- With no sync hook and an always-succeeding `AddBlock`, the commit loop
processes a response without error and commits exactly its blocks, in order. -/
theorem runBlocks_ok {σ : Type} (ops : ChainOps σ) (t : Task σ) (upd : σ → Block → σ)
    (hhook : t.syncBlock = none) (hadd : ∀ c b, ops.addBlock c b = Except.ok (upd c b)) :
    ∀ (blocks : List Block) (bc : σ) (counter lastNum : Nat) (anc : Option Header),
    (runBlocks ops t bc blocks counter lastNum anc).1 = none ∧
    commits (runBlocks ops t bc blocks counter lastNum anc).2.2.2 = blocks := by
  intro blocks
  induction blocks with
  | nil =>
    intro bc counter lastNum anc
    exact ⟨rfl, rfl⟩
  | cons blk rest ih =>
    intro bc counter lastNum anc
    obtain ⟨ih1, ih2⟩ := ih (upd bc blk) (counter + 1) lastNum (some blk.header)
    by_cases hcnt : (counter + 1) % 100 = 0
    · constructor
      · simp [runBlocks, hhook, hadd, hcnt, ih1]
      · simp [runBlocks, hhook, hadd, hcnt, commits, commits_append, commits_sendSyncEv, ih2]
    · constructor
      · simp [runBlocks, hhook, hadd, hcnt, ih1]
      · simp [runBlocks, hhook, hadd, hcnt, commits, ih2]

/-- C5: inside the inner commit loop, a block-fetch response whose length
differs from the requested chunk (the `batchSize`-sized slice, or the whole
remainder for the final chunk) aborts the task with the corresponding
count-mismatch error, the chain, ancestor and trace showing that no block of
the response was committed; a response of matching length has every one of
its blocks processed (committed via `AddBlock`). -/
theorem block_count_mismatch_guard {σ : Type} (ops : ChainOps σ) (t : Task σ)
    (upd : σ → Block → σ) (fuel : Nat) (bc : σ) (hd : Nat) (tl : List Nat)
    (anc : Option Header) (blocks : List Block) :
    ((hd :: tl : List Nat).length > t.batchSize →
      t.getBlocks ((hd :: tl).take t.batchSize) = Except.ok blocks →
      blocks.length ≠ t.batchSize →
      runChunks ops t (fuel + 1) bc (hd :: tl) anc =
        (some (some (Err.blockLenMismatch1 t.batchSize blocks.length)), bc, anc,
          [Event.callGetBlocks ((hd :: tl).take t.batchSize)])) ∧
    (¬ (hd :: tl : List Nat).length > t.batchSize →
      t.getBlocks (hd :: tl) = Except.ok blocks →
      blocks.length ≠ (hd :: tl : List Nat).length →
      runChunks ops t (fuel + 1) bc (hd :: tl) anc =
        (some (some (Err.blockLenMismatch2 (hd :: tl : List Nat).length blocks.length)), bc, anc,
          [Event.callGetBlocks (hd :: tl)])) ∧
    (t.syncBlock = none → (∀ c b, ops.addBlock c b = Except.ok (upd c b)) →
      t.getBlocks (if (hd :: tl : List Nat).length > t.batchSize
        then (hd :: tl).take t.batchSize else hd :: tl) = Except.ok blocks →
      blocks.length = (if (hd :: tl : List Nat).length > t.batchSize
        then t.batchSize else (hd :: tl : List Nat).length) →
      ∀ b ∈ blocks, Event.addBlock b ∈ (runChunks ops t (fuel + 1) bc (hd :: tl) anc).2.2.2) := by
  refine ⟨?_, ?_, ?_⟩
  · intro hbig hget hne
    have hbig' : t.batchSize < tl.length + 1 := by simpa using hbig
    simp [runChunks, hbig', hget, hne]
  · intro hsmall hget hne
    have hsmall' : ¬ t.batchSize < tl.length + 1 := by simpa using hsmall
    have hne' : ¬ blocks.length = tl.length + 1 := by simpa using hne
    simp [runChunks, hsmall', hget, hne']
  · intro hhook hadd hget hlen b hb
    by_cases hbig : (hd :: tl : List Nat).length > t.batchSize
    · have hbig' : t.batchSize < tl.length + 1 := by simpa using hbig
      rw [if_pos hbig] at hget hlen
      obtain ⟨h1, h2⟩ := runBlocks_ok ops t upd hhook hadd blocks bc 0
        ((blocks.getLast?.map fun x => x.header.number).getD 0) anc
      rcases hrb : runBlocks ops t bc blocks 0
          ((blocks.getLast?.map fun x => x.header.number).getD 0) anc with ⟨r, bc2, anc2, evs⟩
      rw [hrb] at h1 h2
      simp only at h1 h2
      subst h1
      have hmem : Event.addBlock b ∈ evs := mem_of_mem_commits b evs (h2 ▸ hb)
      have hred : runChunks ops t (fuel + 1) bc (hd :: tl) anc =
          ((runChunks ops t fuel bc2 ((hd :: tl).drop t.batchSize) anc2).1,
            (runChunks ops t fuel bc2 ((hd :: tl).drop t.batchSize) anc2).2.1,
            (runChunks ops t fuel bc2 ((hd :: tl).drop t.batchSize) anc2).2.2.1,
            Event.callGetBlocks ((hd :: tl).take t.batchSize) :: evs ++
              (runChunks ops t fuel bc2 ((hd :: tl).drop t.batchSize) anc2).2.2.2) := by
        simp [runChunks, hbig', hget, hlen, hrb]
      rw [hred]
      exact List.mem_cons_of_mem _ (List.mem_append_left _ hmem)
    · have hsmall' : ¬ t.batchSize < tl.length + 1 := by simpa using hbig
      rw [if_neg hbig] at hget hlen
      have hlen2 : blocks.length = tl.length + 1 := by simpa using hlen
      obtain ⟨h1, h2⟩ := runBlocks_ok ops t upd hhook hadd blocks bc 0
        ((blocks.getLast?.map fun x => x.header.number).getD 0) anc
      rcases hrb : runBlocks ops t bc blocks 0
          ((blocks.getLast?.map fun x => x.header.number).getD 0) anc with ⟨r, bc2, anc2, evs⟩
      rw [hrb] at h1 h2
      simp only at h1 h2
      subst h1
      have hmem : Event.addBlock b ∈ evs := mem_of_mem_commits b evs (h2 ▸ hb)
      have hred : runChunks ops t (fuel + 1) bc (hd :: tl) anc =
          (some none, bc2, anc2, Event.callGetBlocks (hd :: tl) :: evs) := by
        simp [runChunks, hsmall', hget, hlen2, hrb]
      rw [hred]
      exact List.mem_cons_of_mem _ hmem

theorem block_count_mismatch_guard_witness :
    runChunks tops taskC5 3 bc0 [6, 7, 8] none =
      (some (some (Err.blockLenMismatch1 2 1)), bc0, none, [Event.callGetBlocks [6, 7]]) ∧
    runChunks tops taskC5b 3 bc0 [6, 7, 8] none =
      (some (some (Err.blockLenMismatch2 3 1)), bc0, none, [Event.callGetBlocks [6, 7, 8]]) ∧
    Event.addBlock ⟨mkHeader 6⟩ ∈ (runChunks tops baseTask 3 bc0 [6, 7, 8] none).2.2.2 :=
  ⟨(block_count_mismatch_guard tops taskC5 (fun c b => ⟨b.header, c.blocks ++ [b]⟩) 2 bc0
      6 [7, 8] none [⟨mkHeader 6⟩]).1 (by decide) rfl (by decide),
   (block_count_mismatch_guard tops taskC5b (fun c b => ⟨b.header, c.blocks ++ [b]⟩) 2 bc0
      6 [7, 8] none [⟨mkHeader 6⟩]).2.1 (by decide) rfl (by decide),
   (block_count_mismatch_guard tops baseTask (fun c b => ⟨b.header, c.blocks ++ [b]⟩) 2 bc0
      6 [7, 8] none (mkBlocks [6, 7, 8])).2.2 rfl (fun c b => rfl) rfl rfl
      ⟨mkHeader 6⟩ (by decide)⟩

/-- With a sink attached, no hook and an always-succeeding `AddBlock`, the
progress events of one commit-loop response are exactly those at positions
where the running counter hits a multiple of 100. -/
theorem runBlocks_progress {σ : Type} (ops : ChainOps σ) (t : Task σ) (upd : σ → Block → σ)
    (s : Nat) (hsend : t.send = some s) (hhook : t.syncBlock = none)
    (hadd : ∀ c b, ops.addBlock c b = Except.ok (upd c b)) :
    ∀ (blocks : List Block) (bc : σ) (counter lastNum : Nat) (anc : Option Header),
    progressEvents (runBlocks ops t bc blocks counter lastNum anc).2.2.2 =
      (List.range blocks.length).filterMap fun i =>
        if (counter + i + 1) % 100 = 0 then
          (blocks.get? i).map fun b => (true, b.header.number, lastNum)
        else none := by
  intro blocks
  induction blocks with
  | nil =>
    intro bc counter lastNum anc
    simp [runBlocks, progressEvents]
  | cons blk rest ih =>
    intro bc counter lastNum anc
    have harith : ∀ i : Nat, counter + (i + 1) + 1 = counter + 1 + i + 1 := fun i => by omega
    have htail : List.filterMap
        ((fun i => if (counter + i + 1) % 100 = 0 then
            (((blk :: rest).get? i).map fun b => (true, b.header.number, lastNum)) else none) ∘
          Nat.succ) (List.range rest.length) =
        List.filterMap (fun i => if (counter + 1 + i + 1) % 100 = 0 then
            ((rest.get? i).map fun b => (true, b.header.number, lastNum)) else none)
          (List.range rest.length) := by
      apply List.filterMap_congr
      intro i _
      simp [Function.comp, List.get?_cons_succ, harith i]
    by_cases hcnt : (counter + 1) % 100 = 0
    · have hlhs : progressEvents (runBlocks ops t bc (blk :: rest) counter lastNum anc).2.2.2 =
          (true, blk.header.number, lastNum) ::
            progressEvents (runBlocks ops t (upd bc blk) rest (counter + 1) lastNum
              (some blk.header)).2.2.2 := by
        simp [runBlocks, hhook, hadd, hcnt, sendSyncEv, hsend, progressEvents,
          progressEvents_append]
      rw [hlhs, ih]
      rw [List.length_cons, List.range_succ_eq_map, List.filterMap_cons, List.filterMap_map,
        htail]
      simp [hcnt]
    · have hlhs : progressEvents (runBlocks ops t bc (blk :: rest) counter lastNum anc).2.2.2 =
          progressEvents (runBlocks ops t (upd bc blk) rest (counter + 1) lastNum
            (some blk.header)).2.2.2 := by
        simp [runBlocks, hhook, hadd, hcnt, progressEvents]
      rw [hlhs, ih]
      rw [List.length_cons, List.range_succ_eq_map, List.filterMap_cons, List.filterMap_map,
        htail]
      simp [hcnt]

set_option maxRecDepth 65536 in
/-- C4 counterexample.  First scenario: one header batch 6..106 (101 headers,
last height 106) with block-batch size 100; after the 100th committed block
(height 105) the emitted event is (true, 105, 105) — its `highest` is the last
block of the 100-block chunk, not the batch's last header (106), and
(true, 105, 106) is never emitted.  Second scenario: one batch 6..125 (120
headers) with block-batch size 60; 120 blocks are committed yet no
syncing=true event is emitted at all, because the counter restarts at each
60-block chunk instead of counting across the batch. -/
theorem intermediate_progress_batchwide_cex :
    progressEvents (Run tops taskC4 5 bc0).2.2 = [(false, 10, 106), (true, 105, 105)] ∧
    (mkHeaders 6 101).getLast? = some (mkHeader 106) ∧
    (true, 105, 106) ∉ progressEvents (Run tops taskC4 5 bc0).2.2 ∧
    progressEvents (Run tops taskC4b 5 bc0).2.2 = [(false, 10, 125)] ∧
    (commits (Run tops taskC4b 5 bc0).2.2).length = 120 := by
  refine ⟨by decide, ?_, by decide, by decide, by decide⟩
  decide

/-- C4 amended: intermediate progress events are governed per block-fetch
response, not per header batch: within one response (the final chunk case,
where the whole remaining hash list is fetched at once), after every 100
blocks of that response an event (syncing = true, current = that block's
height, highest = the height of that response's LAST BLOCK) is emitted, the
counter starting at 0 for each response. -/
theorem intermediate_progress_per_response {σ : Type} (ops : ChainOps σ) (t : Task σ)
    (upd : σ → Block → σ) (s fuel : Nat) (bc : σ) (hd : Nat) (tl : List Nat)
    (anc : Option Header) (blocks : List Block)
    (hsend : t.send = some s) (hhook : t.syncBlock = none)
    (hadd : ∀ c b, ops.addBlock c b = Except.ok (upd c b))
    (hsmall : ¬ (hd :: tl : List Nat).length > t.batchSize)
    (hget : t.getBlocks (hd :: tl) = Except.ok blocks)
    (hlen : blocks.length = (hd :: tl : List Nat).length) :
    progressEvents (runChunks ops t (fuel + 1) bc (hd :: tl) anc).2.2.2 =
      responseEvents blocks := by
  have hsmall' : ¬ t.batchSize < tl.length + 1 := by simpa using hsmall
  have hlen' : blocks.length = tl.length + 1 := by simpa using hlen
  have hne : blocks ≠ [] := by
    intro h
    rw [h] at hlen'
    simp at hlen'
  obtain ⟨lastB, hlast⟩ : ∃ lb, blocks.getLast? = some lb := by
    cases hbl : blocks.getLast? with
    | none => exact absurd (List.getLast?_eq_none_iff.mp hbl) hne
    | some x => exact ⟨x, rfl⟩
  have hpevs := runBlocks_progress ops t upd s hsend hhook hadd blocks bc 0
    ((blocks.getLast?.map fun x => x.header.number).getD 0) anc
  obtain ⟨h1, -⟩ := runBlocks_ok ops t upd hhook hadd blocks bc 0
    ((blocks.getLast?.map fun x => x.header.number).getD 0) anc
  rcases hrb : runBlocks ops t bc blocks 0
      ((blocks.getLast?.map fun x => x.header.number).getD 0) anc with ⟨r, bc2, anc2, evs⟩
  rw [hrb] at h1 hpevs
  simp only at h1 hpevs
  subst h1
  have hred : runChunks ops t (fuel + 1) bc (hd :: tl) anc =
      (some none, bc2, anc2, Event.callGetBlocks (hd :: tl) :: evs) := by
    simp [runChunks, hsmall', hget, hlen', hrb]
  rw [hred]
  show progressEvents (Event.callGetBlocks (hd :: tl) :: evs) = responseEvents blocks
  have hpe : progressEvents (Event.callGetBlocks (hd :: tl) :: evs) = progressEvents evs := rfl
  rw [hpe, hpevs]
  unfold responseEvents
  rw [hlast]
  simp

theorem intermediate_progress_per_response_witness :
    progressEvents (runChunks tops taskC4c 101 bc0
        (6 :: ((List.range 99).map fun i => 7 + i)) none).2.2.2 =
      responseEvents (mkBlocks (6 :: ((List.range 99).map fun i => 7 + i))) ∧
    responseEvents (mkBlocks (6 :: ((List.range 99).map fun i => 7 + i))) =
      [(true, 105, 105)] :=
  ⟨intermediate_progress_per_response tops taskC4c (fun c b => ⟨b.header, c.blocks ++ [b]⟩)
      0 100 bc0 6 ((List.range 99).map fun i => 7 + i) none
      (mkBlocks (6 :: ((List.range 99).map fun i => 7 + i))) rfl rfl (fun c b => rfl)
      (by decide) rfl rfl,
    by decide⟩

end QkcSync
